import Mathlib

/-!
Shallow embedding of the gitinfo JSON-schema validator
(src/validators/rust/src/main.rs) and proofs about it.

The core of the program is pure: `validate` walks a parsed JSON value
alongside a schema value and accumulates error strings.  We embed:

* serde_json's `Value` as the inductive `Json` (numbers as `Int`; the
  only numeric operation the core uses is `as_u64`, which on serde's
  side yields `Some` exactly for integers representable in `u64`, so
  non-integral numbers — whose `as_u64` is `None` — are subsumed by
  out-of-range integers for every check modelled here);
* the external regex engine (`Regex::new` + `is_match`) for the
  schema-supplied `pattern` as an oracle parameter
  `rx : String → Option (String → Bool)` (`none` = the pattern fails to
  compile, mirroring `Regex::new` returning `Err`);
* the one fixed regular expression `^[^\s@]+@[^\s@]+\.[^\s@]+$` inside
  `is_valid_email` concretely, as an executable scan over the character
  list, proven equivalent to the declarative decomposition
  `emailRegexMatches`;
* the `.unwrap()` on `schema.get("properties").and_then(as_object)`
  (a potential panic) by letting `validate` return `Option (List String)`,
  `none` marking the panic.

Accumulator discipline: the Rust code threads `&mut Vec<String>` and only
ever pushes; every function here instead returns the list of errors it
appends, and call sites concatenate in push order.
-/

/-- serde_json `Value`: null, bool, number, string, array, object.
Objects are association lists (serde's `Map<String, Value>`; keys unique
in parsed JSON, iteration in the list's order). -/
inductive Json where
  | null
  | bool (b : Bool)
  | num (n : Int)
  | str (s : String)
  | arr (xs : List Json)
  | obj (kvs : List (String × Json))

/-- First-match association-list lookup: serde_json `Map::get`. -/
def getKey : List (String × Json) → String → Option Json
  | [], _ => none
  | (k, v) :: rest, key => if k = key then some v else getKey rest key

/-- Embedding of `Value::get(key)`: `Some` only on objects having the key. -/
def Json.get (j : Json) (key : String) : Option Json :=
  match j with
  | .obj kvs => getKey kvs key
  | _ => none

/-- Embedding of `Value::as_str`. -/
def Json.asStr : Json → Option String
  | .str s => some s
  | _ => none

/-- Embedding of `Value::as_object` (the object's entries). -/
def Json.asObj : Json → Option (List (String × Json))
  | .obj kvs => some kvs
  | _ => none

/-- Embedding of `Value::as_u64`: `Some` exactly for integers representable in `u64`. -/
def Json.asU64 : Json → Option Nat
  | .num n => if 0 ≤ n ∧ n < (2 : Int) ^ 64 then some n.toNat else none
  | _ => none

/-- Embedding of `Value::is_object`. -/
def Json.isObject : Json → Bool
  | .obj _ => true
  | _ => false

/-- Embedding of `Value::is_string`. -/
def Json.isString : Json → Bool
  | .str _ => true
  | _ => false

/-- Embedding of `Value::is_array`. -/
def Json.isArray : Json → Bool
  | .arr _ => true
  | _ => false

/-- Rust `str::starts_with(pre)`: byte-prefix, which on valid UTF-8
strings coincides with character-list prefix. -/
def strStartsWith (pre s : String) : Bool :=
  pre.data.isPrefixOf s.data

/-- Function `is_valid_uri` from the source: a three-prefix allowlist. -/
def is_valid_uri (s : String) : Bool :=
  strStartsWith "http://" s || strStartsWith "https://" s ||
    strStartsWith "data:image/" s

/-- The character class `\s` of the Rust regex crate (Unicode White_Space). -/
def isRegexWs (c : Char) : Bool :=
  (0x09 ≤ c.toNat && c.toNat ≤ 0x0D) || c.toNat == 0x20 || c.toNat == 0x85 ||
  c.toNat == 0xA0 || c.toNat == 0x1680 ||
  (0x2000 ≤ c.toNat && c.toNat ≤ 0x200A) || c.toNat == 0x2028 ||
  c.toNat == 0x2029 || c.toNat == 0x202F || c.toNat == 0x205F ||
  c.toNat == 0x3000

/-- The character class `[^\s@]` of the email regular expression. -/
def emailAtomChar (c : Char) : Bool :=
  !(isRegexWs c) && c != '@'

/-- Does the list contain a '.' at some position other than the last?
(That is, `l = u ++ '.' :: v` with `v ≠ []`.) -/
def hasDotNotLast : List Char → Bool
  | c :: c2 :: rest => c == '.' || hasDotNotLast (c2 :: rest)
  | _ => false

/-- Does the list contain a '.' at some position that is neither first
nor last?  (That is, `l = u ++ '.' :: v` with `u ≠ []` and `v ≠ []`.) -/
def hasInteriorDot : List Char → Bool
  | _ :: c2 :: rest => hasDotNotLast (c2 :: rest)
  | _ => false

/-- Function `is_valid_email` from the source: matching of the fixed anchored
regular expression `^[^\s@]+@[^\s@]+\.[^\s@]+$` (`Regex::new(..).unwrap()`
followed by `is_match`), implemented as a scan: split at the first `@`;
the prefix must be a nonempty run of `[^\s@]`, and the remainder must be
a nonempty run of `[^\s@]` containing a `.` that is neither its first nor
its last character.  Equivalence with the declarative reading
`emailRegexMatches` is proven below. -/
def is_valid_email (s : String) : Bool :=
  match s.data.dropWhile (fun c => c != '@') with
  | [] => false
  | _ :: b =>
    let a := s.data.takeWhile (fun c => c != '@')
    !a.isEmpty && a.all emailAtomChar && b.all emailAtomChar && hasInteriorDot b

/-- Declarative semantics of the anchored regular expression
`^[^\s@]+@[^\s@]+\.[^\s@]+$`: the whole string decomposes as
`A @ B . C` with `A`, `B`, `C` nonempty runs of `[^\s@]`. -/
def emailRegexMatches (s : String) : Prop :=
  ∃ A B C : List Char,
    s.data = A ++ '@' :: (B ++ '.' :: C) ∧
    A ≠ [] ∧ B ≠ [] ∧ C ≠ [] ∧
    (∀ c ∈ A, emailAtomChar c = true) ∧
    (∀ c ∈ B, emailAtomChar c = true) ∧
    (∀ c ∈ C, emailAtomChar c = true)

/-- The external regex engine for schema-supplied patterns:
`Regex::new(p)` followed by `is_match`; `none` models a pattern that
fails to compile. -/
def RegexFn : Type := String → Option (String → Bool)

/-- The `// Check format` block of the `Some("string")` arm of
`validate_property`. -/
def formatErrors (path s : String) (schema : Json) : List String :=
  match (schema.get "format").bind Json.asStr with
  | some "uri" =>
    if is_valid_uri s then [] else [path ++ ": invalid URI \"" ++ s ++ "\""]
  | some "email" =>
    if is_valid_email s then [] else [path ++ ": invalid email \"" ++ s ++ "\""]
  | _ => []

/-- The `// Check pattern` block of the `Some("string")` arm of
`validate_property`: an uncompilable pattern (`Regex::new` errs) is
silently skipped. -/
def patternErrors (rx : RegexFn) (path s : String) (schema : Json) : List String :=
  match (schema.get "pattern").bind Json.asStr with
  | some p =>
    match rx p with
    | some m =>
      if m s then [] else [path ++ ": does not match pattern " ++ p]
    | none => []
  | none => []

/-- The `// Check minLength` block of the `Some("string")` arm of
`validate_property`: `s.len()` in Rust is the UTF-8 byte length. -/
def minLengthErrors (path s : String) (schema : Json) : List String :=
  match (schema.get "minLength").bind Json.asU64 with
  | some n =>
    if s.utf8ByteSize < n then
      [path ++ ": string too short (min " ++ toString n ++ ")"]
    else []
  | none => []

/-- The `minItems` check inside the tuple branch of the `Some("array")`
arm (`len` is the data array's length). -/
def minItemsErrors (path : String) (len : Nat) (schema : Json) : List String :=
  match (schema.get "minItems").bind Json.asU64 with
  | some n =>
    if len < n then [path ++ ": expected at least " ++ toString n ++ " items"]
    else []
  | none => []

/-- The `maxItems` check inside the tuple branch of the `Some("array")`
arm. -/
def maxItemsErrors (path : String) (len : Nat) (schema : Json) : List String :=
  match (schema.get "maxItems").bind Json.asU64 with
  | some n =>
    if len > n then [path ++ ": expected at most " ++ toString n ++ " items"]
    else []
  | none => []

mutual

/-- Function `validate_property` from the source: dispatch on `schema.type`
(the Rust `match expected_type` with arms `Some("string")`,
`Some("array")`, `Some("object")`, `_`, rendered as a disjoint
first-match chain); returns the errors it appends, in push order. -/
def validate_property (rx : RegexFn) (path : String) (value schema : Json) : List String :=
  let ty := (schema.get "type").bind Json.asStr
  if ty = some "string" then
    match value with
    | .str s =>
      formatErrors path s schema ++ patternErrors rx path s schema ++
        minLengthErrors path s schema
    | _ => [path ++ ": expected string"]
  else if ty = some "array" then
    match value with
    | .arr xs =>
      match schema.get "items" with
      | some items =>
        match items with
        | .arr iss =>
          tupleItems rx path iss 0 xs ++ minItemsErrors path xs.length schema ++
            maxItemsErrors path xs.length schema
        | _ => homogItems rx path items 0 xs
      | none => []
    | _ => [path ++ ": expected array"]
  else if ty = some "object" then
    match value with
    | .obj _ => []
    | _ => [path ++ ": expected object"]
  else []
  termination_by (sizeOf value, 1)

/-- Tuple-mode element loop (`for (i, item) in arr.iter().enumerate()`
with `items_schemas.get(i)`), starting at index `i`. -/
def tupleItems (rx : RegexFn) (path : String) (iss : List Json) (i : Nat) :
    List Json → List String
  | [] => []
  | x :: rest =>
    (match iss.get? i with
     | some isch => validate_property rx (path ++ "[" ++ toString i ++ "]") x isch
     | none => []) ++ tupleItems rx path iss (i + 1) rest
  termination_by xs => (sizeOf xs, 0)

/-- Homogeneous-mode element loop (every element validated against the
same `items` node), starting at index `i`. -/
def homogItems (rx : RegexFn) (path : String) (isch : Json) (i : Nat) :
    List Json → List String
  | [] => []
  | x :: rest =>
    validate_property rx (path ++ "[" ++ toString i ++ "]") x isch ++
      homogItems rx path isch (i + 1) rest
  termination_by xs => (sizeOf xs, 0)

end

/-- Returns `true` iff some entry of `props` has key `k` (`allowed.contains`). -/
def hasKey (props : List (String × Json)) (k : String) : Bool :=
  props.any (fun p => p.1 == k)

/-- The `// Check additionalProperties` loop body: one error per data key
not among the schema's property keys, in data-key order. -/
def unknownPropertyErrors (kvs props : List (String × Json)) : List String :=
  kvs.filterMap (fun kv =>
    if hasKey props kv.1 then none
    else some ("root: unknown property \"" ++ kv.1 ++ "\""))

/-- The `// Validate each property` loop: declared keys present in the
data are delegated to `validate_property` at path `.<key>`; absent keys
contribute nothing. -/
def propertyErrors (rx : RegexFn) (kvs props : List (String × Json)) : List String :=
  match props with
  | [] => []
  | (k, ps) :: rest =>
    (match getKey kvs k with
     | some v => validate_property rx ("." ++ k) v ps
     | none => []) ++ propertyErrors rx kvs rest

/-- The guard `schema.get("additionalProperties") == Some(&Value::Bool(false))`. -/
def addlFalse (schema : Json) : Bool :=
  match schema.get "additionalProperties" with
  | some (.bool false) => true
  | _ => false

/-- Function `validate` from the source.  `none` models the panic of the
`.unwrap()` on `schema.get("properties").and_then(|p| p.as_object())`,
reachable only after the root-object check passed. -/
def validate (rx : RegexFn) (data schema : Json) : Option (List String) :=
  match data with
  | .obj kvs =>
    match (schema.get "properties").bind Json.asObj with
    | none => none
    | some props =>
      some ((if addlFalse schema then unknownPropertyErrors kvs props else []) ++
        propertyErrors rx kvs props)
  | _ => some ["root: expected object"]

/-! ### List lemmas for the email regular expression -/

theorem tw_dw_append {p : Char → Bool} (A : List Char) (d : Char) (R : List Char)
    (hA : ∀ x ∈ A, p x = true) (hd : p d = false) :
    (A ++ d :: R).takeWhile p = A ∧ (A ++ d :: R).dropWhile p = d :: R := by
  induction A with
  | nil => simp [List.takeWhile_cons, List.dropWhile_cons, hd]
  | cons a A ih =>
    have ha : p a = true := hA a (List.mem_cons_self _ _)
    have h2 := ih (fun x hx => hA x (List.mem_cons_of_mem _ hx))
    simp [List.takeWhile_cons, List.dropWhile_cons, ha, h2.1, h2.2]

theorem dropWhile_head_false {p : Char → Bool} (l : List Char) {c : Char}
    {t : List Char} (h : l.dropWhile p = c :: t) : p c = false := by
  induction l with
  | nil => simp [List.dropWhile] at h
  | cons a l ih =>
    rw [List.dropWhile_cons] at h
    by_cases ha : p a
    · simp [ha] at h
      exact ih h
    · simp [ha] at h
      rw [← h.1]
      simpa using ha

theorem hasDotNotLast_iff (l : List Char) :
    hasDotNotLast l = true ↔ ∃ u v, l = u ++ '.' :: v ∧ v ≠ [] := by
  induction l with
  | nil =>
    constructor
    · intro h
      simp [hasDotNotLast] at h
    · rintro ⟨u, v, h, hv⟩
      exact absurd h.symm (by simp)
  | cons c t ih =>
    cases t with
    | nil =>
      constructor
      · intro h
        simp [hasDotNotLast] at h
      · rintro ⟨u, v, h, hv⟩
        cases u with
        | nil =>
          rw [List.nil_append] at h
          injection h with h1 h2
          exact absurd h2.symm hv
        | cons a u =>
          rw [List.cons_append] at h
          injection h with h1 h2
          exact absurd h2.symm (by simp)
    | cons c2 rest =>
      have heq : hasDotNotLast (c :: c2 :: rest) =
          ((c == '.') || hasDotNotLast (c2 :: rest)) := rfl
      rw [heq, Bool.or_eq_true, beq_iff_eq, ih]
      constructor
      · rintro (rfl | ⟨u, v, h, hv⟩)
        · exact ⟨[], c2 :: rest, rfl, by simp⟩
        · exact ⟨c :: u, v, by simp [h], hv⟩
      · rintro ⟨u, v, h, hv⟩
        cases u with
        | nil =>
          rw [List.nil_append] at h
          injection h with h1 h2
          exact Or.inl h1
        | cons a u =>
          rw [List.cons_append] at h
          injection h with h1 h2
          exact Or.inr ⟨u, v, h2, hv⟩

theorem hasInteriorDot_iff (l : List Char) :
    hasInteriorDot l = true ↔ ∃ u v, l = u ++ '.' :: v ∧ u ≠ [] ∧ v ≠ [] := by
  cases l with
  | nil =>
    constructor
    · intro h
      simp [hasInteriorDot] at h
    · rintro ⟨u, v, h, hu, hv⟩
      exact absurd h.symm (by simp)
  | cons c t =>
    cases t with
    | nil =>
      constructor
      · intro h
        simp [hasInteriorDot] at h
      · rintro ⟨u, v, h, hu, hv⟩
        cases u with
        | nil => exact absurd rfl hu
        | cons a u =>
          rw [List.cons_append] at h
          injection h with h1 h2
          exact absurd h2.symm (by simp)
    | cons c2 rest =>
      have heq : hasInteriorDot (c :: c2 :: rest) = hasDotNotLast (c2 :: rest) := rfl
      rw [heq, hasDotNotLast_iff]
      constructor
      · rintro ⟨u, v, h, hv⟩
        exact ⟨c :: u, v, by simp [h], by simp, hv⟩
      · rintro ⟨u, v, h, hu, hv⟩
        cases u with
        | nil => exact absurd rfl hu
        | cons a u =>
          rw [List.cons_append] at h
          injection h with h1 h2
          exact ⟨u, v, h2, hv⟩

theorem emailAtomChar_ne_at {c : Char} (h : emailAtomChar c = true) :
    (c != '@') = true := by
  unfold emailAtomChar at h
  rw [Bool.and_eq_true] at h
  exact h.2

/-- The scan `is_valid_email` implements exactly the anchored regular
expression `^[^\s@]+@[^\s@]+\.[^\s@]+$`. -/
theorem is_valid_email_iff (s : String) :
    is_valid_email s = true ↔ emailRegexMatches s := by
  unfold is_valid_email emailRegexMatches
  cases hdw : s.data.dropWhile (fun c => c != '@') with
  | nil =>
    constructor
    · intro h
      exact Bool.noConfusion h
    · rintro ⟨A, B, C, hd, hA, hB, hC, haA, haB, haC⟩
      have hp : ∀ x ∈ A, (fun c => c != '@') x = true :=
        fun x hx => emailAtomChar_ne_at (haA x hx)
      have hdd := (tw_dw_append A '@' (B ++ '.' :: C) hp (by simp)).2
      rw [← hd] at hdd
      rw [hdw] at hdd
      exact absurd hdd (by simp)
  | cons c b =>
    have hc : (fun c => c != '@') c = false :=
      dropWhile_head_false (p := fun x => x != '@') s.data hdw
    have hc2 : c = '@' := by simpa using hc
    subst hc2
    have hsplit := List.takeWhile_append_dropWhile
      (p := fun c => c != '@') (l := s.data)
    rw [hdw] at hsplit
    simp only [Bool.and_eq_true, Bool.not_eq_true', List.all_eq_true]
    constructor
    · rintro ⟨⟨⟨h1, h2⟩, h3⟩, h4⟩
      obtain ⟨u, v, hb, hu, hv⟩ := (hasInteriorDot_iff b).mp h4
      refine ⟨s.data.takeWhile (fun c => c != '@'), u, v, ?_, ?_, hu, hv, h2, ?_, ?_⟩
      · exact (hb ▸ hsplit).symm
      · intro he
        rw [he] at h1
        simp at h1
      · intro x hx
        exact h3 x (by rw [hb]; exact List.mem_append_left _ hx)
      · intro x hx
        exact h3 x (by rw [hb]; exact List.mem_append_right _ (List.mem_cons_of_mem _ hx))
    · rintro ⟨A, B, C, hd, hA, hB, hC, haA, haB, haC⟩
      have hp : ∀ x ∈ A, (fun c => c != '@') x = true :=
        fun x hx => emailAtomChar_ne_at (haA x hx)
      have hdd := tw_dw_append A '@' (B ++ '.' :: C) hp (by simp)
      rw [← hd] at hdd
      have htw : s.data.takeWhile (fun c => c != '@') = A := hdd.1
      have hb : b = B ++ '.' :: C := by
        have := hdd.2.symm.trans hdw
        injection this with h1 h2
        exact h2.symm
      refine ⟨⟨⟨?_, ?_⟩, ?_⟩, ?_⟩
      · rw [htw]
        cases A with
        | nil => exact absurd rfl hA
        | cons a A => simp
      · rw [htw]
        exact haA
      · intro x hx
        rw [hb] at hx
        rcases List.mem_append.mp hx with h | h
        · exact haB x h
        · rcases List.mem_cons.mp h with rfl | h
          · decide
          · exact haC x h
      · rw [hb]
        exact (hasInteriorDot_iff _).mpr ⟨B, C, rfl, hB, hC⟩

/-! ### Branch lemmas for `validate_property` -/

/-- The `// Validate items` block of the `Some("array")` arm, as a
standalone function of the data elements and the schema node (the
min/max item-count checks sit inside the tuple branch, as in the
source). -/
def arrayErrors (rx : RegexFn) (path : String) (xs : List Json) (schema : Json) : List String :=
  match schema.get "items" with
  | some items =>
    match items with
    | .arr iss =>
      tupleItems rx path iss 0 xs ++ minItemsErrors path xs.length schema ++
        maxItemsErrors path xs.length schema
    | _ => homogItems rx path items 0 xs
  | none => []

theorem vp_str (rx : RegexFn) (path s : String) (schema : Json)
    (ht : (schema.get "type").bind Json.asStr = some "string") :
    validate_property rx path (Json.str s) schema =
      formatErrors path s schema ++ patternErrors rx path s schema ++
        minLengthErrors path s schema := by
  rw [validate_property.eq_def]
  simp [ht]

theorem vp_str_mismatch (rx : RegexFn) (path : String) (value schema : Json)
    (ht : (schema.get "type").bind Json.asStr = some "string")
    (hv : value.isString = false) :
    validate_property rx path value schema = [path ++ ": expected string"] := by
  rw [validate_property.eq_def]
  cases value <;> simp [ht, Json.isString] at hv ⊢

theorem vp_arr (rx : RegexFn) (path : String) (xs : List Json) (schema : Json)
    (ht : (schema.get "type").bind Json.asStr = some "array") :
    validate_property rx path (Json.arr xs) schema =
      arrayErrors rx path xs schema := by
  rw [validate_property.eq_def]
  simp [ht, arrayErrors]

theorem vp_arr_mismatch (rx : RegexFn) (path : String) (value schema : Json)
    (ht : (schema.get "type").bind Json.asStr = some "array")
    (hv : value.isArray = false) :
    validate_property rx path value schema = [path ++ ": expected array"] := by
  rw [validate_property.eq_def]
  cases value <;> simp [ht, Json.isArray] at hv ⊢

/-! ### Helper lemmas about `validate` and its pieces -/

theorem addlFalse_false (schema : Json)
    (ha : schema.get "additionalProperties" ≠ some (Json.bool false)) :
    addlFalse schema = false := by
  unfold addlFalse
  cases hx : schema.get "additionalProperties" with
  | none => rfl
  | some j =>
    cases j with
    | null => rfl
    | bool b =>
      cases b with
      | false => exact absurd hx ha
      | true => rfl
    | num n => rfl
    | str s => rfl
    | arr xs => rfl
    | obj kvs => rfl

theorem validate_obj_addl (rx : RegexFn) (kvs props : List (String × Json))
    (schema : Json)
    (hp : (schema.get "properties").bind Json.asObj = some props)
    (ha : schema.get "additionalProperties" = some (Json.bool false)) :
    validate rx (Json.obj kvs) schema =
      some (unknownPropertyErrors kvs props ++ propertyErrors rx kvs props) := by
  have haf : addlFalse schema = true := by
    unfold addlFalse
    rw [ha]
  simp [validate, hp, haf]

theorem validate_obj_no_addl (rx : RegexFn) (kvs props : List (String × Json))
    (schema : Json)
    (hp : (schema.get "properties").bind Json.asObj = some props)
    (ha : schema.get "additionalProperties" ≠ some (Json.bool false)) :
    validate rx (Json.obj kvs) schema = some (propertyErrors rx kvs props) := by
  simp [validate, hp, addlFalse_false schema ha]

theorem unknownPropertyErrors_eq (kvs props : List (String × Json)) :
    unknownPropertyErrors kvs props =
      ((kvs.map Prod.fst).filter (fun k => !hasKey props k)).map
        (fun k => "root: unknown property \"" ++ k ++ "\"") := by
  induction kvs with
  | nil => rfl
  | cons kv rest ih =>
    unfold unknownPropertyErrors at ih ⊢
    cases hk : hasKey props kv.1 <;>
      simp [List.filterMap_cons, List.filter_cons, hk, ih]

theorem validate_not_obj (rx : RegexFn) (data schema : Json)
    (h : data.isObject = false) :
    validate rx data schema = some ["root: expected object"] := by
  cases data <;> simp [validate, Json.isObject] at h ⊢

/-- A regex engine on which every pattern fails to compile; used to
instantiate the oracle in witnesses. -/
def rxNone : RegexFn := fun _ => none

/-! ### The claims -/

/-- C1: whenever the data root is not a JSON object, `validate` returns
exactly the one error `"root: expected object"`, for every schema and
every regex engine; and the schema is not consulted (any two schemas give
the same result). -/
theorem C1_root_not_object (rx : RegexFn) (data schema schema2 : Json)
    (h : data.isObject = false) :
    validate rx data schema = some ["root: expected object"] ∧
    validate rx data schema = validate rx data schema2 :=
  ⟨validate_not_obj rx data schema h, by
    rw [validate_not_obj rx data schema h, validate_not_obj rx data schema2 h]⟩

theorem C1_witness :
    Json.isObject (Json.arr []) = false ∧
    validate rxNone (Json.arr []) (Json.obj []) = some ["root: expected object"] :=
  ⟨rfl, (C1_root_not_object rxNone (Json.arr []) (Json.obj []) Json.null rfl).1⟩

/-- C2 counterexample: on the concrete input `data = {}` (an object) and
`schema = {}` (no `properties` key), `validate` reaches the `.unwrap()`
on `schema.get("properties").and_then(as_object)` and panics (modelled as
`none`): it does not return an error list, so the claim that it never
panics for every document and schema is false. -/
theorem C2_panic_counterexample :
    validate rxNone (Json.obj []) (Json.obj []) = none := rfl

/-- C2 (amended): `validate` never panics — it returns a (possibly
empty) list of error strings — provided the data root is not an object
(the root check returns before the schema is read) or the schema's
`properties` key holds an object; when the data root is an object and
`properties` is missing or not an object, the `.unwrap()` panics. -/
theorem C2_no_panic_amended (rx : RegexFn) (data schema : Json)
    (h : data.isObject = false ∨
      ∃ props, (schema.get "properties").bind Json.asObj = some props) :
    ∃ errs, validate rx data schema = some errs := by
  rcases h with h | ⟨props, hp⟩
  · exact ⟨_, validate_not_obj rx data schema h⟩
  · cases data with
    | obj kvs =>
      refine ⟨(if addlFalse schema then unknownPropertyErrors kvs props
        else []) ++ propertyErrors rx kvs props, ?_⟩
      simp [validate, hp]
    | null => exact ⟨_, rfl⟩
    | bool b => exact ⟨_, rfl⟩
    | num n => exact ⟨_, rfl⟩
    | str s => exact ⟨_, rfl⟩
    | arr xs => exact ⟨_, rfl⟩

theorem C2_witness :
    (Json.isObject (Json.obj [("x", Json.null)]) = false ∨
      ∃ props, ((Json.obj [("properties", Json.obj [])]).get "properties").bind
        Json.asObj = some props) ∧
    ∃ errs, validate rxNone (Json.obj [("x", Json.null)])
      (Json.obj [("properties", Json.obj [])]) = some errs :=
  ⟨Or.inr ⟨[], rfl⟩,
   C2_no_panic_amended rxNone (Json.obj [("x", Json.null)])
     (Json.obj [("properties", Json.obj [])]) (Or.inr ⟨[], rfl⟩)⟩

/-- C3: when `additionalProperties` is exactly the boolean `false` and
the data root is an object, the unknown-property block contributes one
error `root: unknown property "<key>"` for each data key absent from the
`properties` map and for exactly those keys, in data order, followed by
the per-property delegation errors; when `additionalProperties` is absent
or any other value, no unknown-property block is emitted. -/
theorem C3_additional_properties (rx : RegexFn)
    (kvs props : List (String × Json)) (schema : Json)
    (hp : (schema.get "properties").bind Json.asObj = some props) :
    (schema.get "additionalProperties" = some (Json.bool false) →
      validate rx (Json.obj kvs) schema =
        some ((((kvs.map Prod.fst).filter (fun k => !hasKey props k)).map
          (fun k => "root: unknown property \"" ++ k ++ "\"")) ++
          propertyErrors rx kvs props)) ∧
    (schema.get "additionalProperties" ≠ some (Json.bool false) →
      validate rx (Json.obj kvs) schema = some (propertyErrors rx kvs props)) :=
  ⟨fun ha => by
      rw [validate_obj_addl rx kvs props schema hp ha, unknownPropertyErrors_eq],
   fun ha => validate_obj_no_addl rx kvs props schema hp ha⟩

theorem C3_witness :
    validate rxNone (Json.obj [("a", Json.null), ("b", Json.null)])
      (Json.obj [("properties", Json.obj [("a", Json.obj [])]),
                 ("additionalProperties", Json.bool false)]) =
      some ["root: unknown property \"b\""] := by
  have h := (C3_additional_properties rxNone [("a", Json.null), ("b", Json.null)]
    [("a", Json.obj [])]
    (Json.obj [("properties", Json.obj [("a", Json.obj [])]),
               ("additionalProperties", Json.bool false)]) rfl).1 rfl
  rw [h]
  simp [propertyErrors, getKey, validate_property, Json.get, hasKey]

/-- C4: each key declared in `properties` and present in the data is
delegated to `validate_property` at path `.<key>` (its errors appear as a
contiguous block of the output); a declared key absent from the data
contributes nothing at all — in particular it is never reported as
missing. -/
theorem C4_declared_properties (rx : RegexFn) (kvs props : List (String × Json))
    (k : String) (ps v : Json) :
    ((k, ps) ∈ props → getKey kvs k = some v →
      ∃ pre post, propertyErrors rx kvs props =
        pre ++ validate_property rx ("." ++ k) v ps ++ post) ∧
    (getKey kvs k = none →
      propertyErrors rx kvs ((k, ps) :: props) = propertyErrors rx kvs props) := by
  constructor
  · induction props with
    | nil =>
      intro hm hl
      simp at hm
    | cons kp rest ih =>
      intro hm hl
      rcases List.mem_cons.mp hm with heq | hm2
      · obtain ⟨k0, ps0⟩ := kp
        injection heq with h1 h2
        subst h1
        subst h2
        refine ⟨[], propertyErrors rx kvs rest, ?_⟩
        simp [propertyErrors, hl]
      · obtain ⟨pre, post, hpp⟩ := ih hm2 hl
        obtain ⟨k0, ps0⟩ := kp
        cases hg : getKey kvs k0 with
        | none =>
          refine ⟨pre, post, ?_⟩
          simp [propertyErrors, hg, hpp]
        | some v0 =>
          refine ⟨validate_property rx ("." ++ k0) v0 ps0 ++ pre, post, ?_⟩
          simp [propertyErrors, hg, hpp]
  · intro hl
    simp [propertyErrors, hl]

theorem C4_witness :
    (∃ pre post,
      propertyErrors rxNone [("a", Json.num 1)]
          [("a", Json.obj [("type", Json.str "string")])] =
        pre ++ validate_property rxNone ("." ++ "a") (Json.num 1)
          (Json.obj [("type", Json.str "string")]) ++ post) ∧
    propertyErrors rxNone [] [("z", Json.null)] = propertyErrors rxNone [] [] :=
  ⟨(C4_declared_properties rxNone [("a", Json.num 1)]
      [("a", Json.obj [("type", Json.str "string")])] "a"
      (Json.obj [("type", Json.str "string")]) (Json.num 1)).1 (by simp) rfl,
   (C4_declared_properties rxNone [] [] "z" Json.null Json.null).2 rfl⟩

/-- C5: under declared type `"string"` (resp. `"array"`), a value of the
wrong runtime type produces exactly the single error
`<path>: expected string` (resp. `<path>: expected array`) and nothing
else (no descent, no constraint checks); a value of the matching type
produces exactly the concatenation of all applicable constraint blocks —
format, pattern and minLength for strings, the items block (with the
min/maxItems bounds) for arrays — so every violation among them is
reported. -/
theorem C5_mismatch_stops_checks_run (rx : RegexFn) (path : String)
    (value schema : Json) (s : String) (xs : List Json) :
    ((schema.get "type").bind Json.asStr = some "string" →
      (value.isString = false →
        validate_property rx path value schema = [path ++ ": expected string"]) ∧
      validate_property rx path (Json.str s) schema =
        formatErrors path s schema ++ patternErrors rx path s schema ++
          minLengthErrors path s schema) ∧
    ((schema.get "type").bind Json.asStr = some "array" →
      (value.isArray = false →
        validate_property rx path value schema = [path ++ ": expected array"]) ∧
      validate_property rx path (Json.arr xs) schema =
        arrayErrors rx path xs schema) :=
  ⟨fun ht => ⟨vp_str_mismatch rx path value schema ht,
              vp_str rx path s schema ht⟩,
   fun ht => ⟨vp_arr_mismatch rx path value schema ht,
              vp_arr rx path xs schema ht⟩⟩

theorem C5_witness :
    validate_property rxNone ".p" (Json.num 1)
      (Json.obj [("type", Json.str "string")]) = [".p: expected string"] ∧
    validate_property rxNone ".p" (Json.bool true)
      (Json.obj [("type", Json.str "array")]) = [".p: expected array"] :=
  ⟨((C5_mismatch_stops_checks_run rxNone ".p" (Json.num 1)
      (Json.obj [("type", Json.str "string")]) "x" []).1 rfl).1 rfl,
   ((C5_mismatch_stops_checks_run rxNone ".p" (Json.bool true)
      (Json.obj [("type", Json.str "array")]) "x" []).2 rfl).1 rfl⟩

/-- C6: `is_valid_uri` accepts exactly the strings with one of the three
literal prefixes `http://`, `https://`, `data:image/`; `is_valid_email`
accepts exactly the strings matching `^[^\s@]+@[^\s@]+\.[^\s@]+$`; and on
a string value under the corresponding `format`, a failing check appends
exactly one invalid-URI (resp. invalid-email) error. -/
theorem C6_format_checkers :
    (∀ s : String, is_valid_uri s = true ↔
      (strStartsWith "http://" s = true ∨ strStartsWith "https://" s = true ∨
        strStartsWith "data:image/" s = true)) ∧
    (∀ s : String, is_valid_email s = true ↔ emailRegexMatches s) ∧
    (∀ (path s : String) (schema : Json),
      (schema.get "format").bind Json.asStr = some "uri" →
      is_valid_uri s = false →
      formatErrors path s schema = [path ++ ": invalid URI \"" ++ s ++ "\""]) ∧
    (∀ (path s : String) (schema : Json),
      (schema.get "format").bind Json.asStr = some "email" →
      is_valid_email s = false →
      formatErrors path s schema = [path ++ ": invalid email \"" ++ s ++ "\""]) := by
  refine ⟨fun s => ?_, is_valid_email_iff, fun path s schema hf hu => ?_,
    fun path s schema hf hu => ?_⟩
  · simp [is_valid_uri, Bool.or_eq_true, or_assoc]
  · unfold formatErrors
    rw [hf]
    simp [hu]
  · unfold formatErrors
    rw [hf]
    simp [hu]

theorem C6_witness :
    is_valid_uri "https://x.com" = true ∧
    is_valid_email "a@b.co" = true ∧
    formatErrors ".x" "ftp://a" (Json.obj [("format", Json.str "uri")]) =
      [".x: invalid URI \"ftp://a\""] ∧
    formatErrors ".x" "nope" (Json.obj [("format", Json.str "email")]) =
      [".x: invalid email \"nope\""] :=
  ⟨(C6_format_checkers.1 "https://x.com").mpr (Or.inr (Or.inl (by decide))),
   (C6_format_checkers.2.1 "a@b.co").mpr
     ⟨['a'], ['b'], ['c', 'o'], by decide, by decide, by decide, by decide,
      by decide, by decide, by decide⟩,
   C6_format_checkers.2.2.1 ".x" "ftp://a"
     (Json.obj [("format", Json.str "uri")]) rfl (by decide),
   C6_format_checkers.2.2.2 ".x" "nope"
     (Json.obj [("format", Json.str "email")]) rfl (by decide)⟩

/-- C7: when the schema's `pattern` holds a string that the regex engine
fails to compile, no pattern error is appended — under type `"string"`
the output is exactly as if `pattern` were absent (format and minLength
blocks only); when the pattern compiles to matcher `m`, a
"does not match pattern" error is appended exactly when `m` fails on the
value. -/
theorem C7_invalid_pattern_ignored (rx : RegexFn) (path s p : String)
    (schema : Json)
    (hp : (schema.get "pattern").bind Json.asStr = some p) :
    (rx p = none → patternErrors rx path s schema = []) ∧
    (∀ m, rx p = some m → patternErrors rx path s schema =
      (if m s then [] else [path ++ ": does not match pattern " ++ p])) ∧
    (rx p = none → (schema.get "type").bind Json.asStr = some "string" →
      validate_property rx path (Json.str s) schema =
        formatErrors path s schema ++ minLengthErrors path s schema) := by
  refine ⟨fun hn => ?_, fun m hm => ?_, fun hn ht => ?_⟩
  · unfold patternErrors
    rw [hp]
    simp [hn]
  · unfold patternErrors
    rw [hp]
    simp [hm]
  · rw [vp_str rx path s schema ht]
    have hpe : patternErrors rx path s schema = [] := by
      unfold patternErrors
      rw [hp]
      simp [hn]
    rw [hpe]
    simp

theorem C7_witness :
    patternErrors rxNone ".x" "abc" (Json.obj [("pattern", Json.str "(")]) = [] ∧
    validate_property rxNone ".x" (Json.str "abc")
      (Json.obj [("type", Json.str "string"), ("pattern", Json.str "(")]) =
      formatErrors ".x" "abc"
        (Json.obj [("type", Json.str "string"), ("pattern", Json.str "(")]) ++
      minLengthErrors ".x" "abc"
        (Json.obj [("type", Json.str "string"), ("pattern", Json.str "(")]) :=
  ⟨(C7_invalid_pattern_ignored rxNone ".x" "abc" "("
      (Json.obj [("pattern", Json.str "(")]) rfl).1 rfl,
   (C7_invalid_pattern_ignored rxNone ".x" "abc" "("
      (Json.obj [("type", Json.str "string"), ("pattern", Json.str "(")])
      rfl).2.2 rfl rfl⟩

/-- C8: with a `minLength` of `N` (a non-negative integer as read by
`as_u64`), the "string too short (min N)" error is appended exactly when
the string's UTF-8 byte length — Rust's `s.len()`, not the codepoint
count — is strictly below `N`. -/
theorem C8_min_length_bytes (path s : String) (schema : Json) (n : Nat)
    (h : (schema.get "minLength").bind Json.asU64 = some n) :
    (s.utf8ByteSize < n →
      minLengthErrors path s schema =
        [path ++ ": string too short (min " ++ toString n ++ ")"]) ∧
    (¬ s.utf8ByteSize < n → minLengthErrors path s schema = []) := by
  unfold minLengthErrors
  rw [h]
  constructor
  · intro hlt
    simp [hlt]
  · intro hge
    simp [hge]

theorem C8_witness :
    minLengthErrors ".x" "é" (Json.obj [("minLength", Json.num 2)]) = [] ∧
    "é".utf8ByteSize = 2 ∧ "é".data.length = 1 ∧
    minLengthErrors ".x" "ab" (Json.obj [("minLength", Json.num 3)]) =
      [".x: string too short (min 3)"] :=
  ⟨(C8_min_length_bytes ".x" "é" (Json.obj [("minLength", Json.num 2)]) 2
      (by decide)).2 (by decide),
   by decide, by decide,
   (C8_min_length_bytes ".x" "ab" (Json.obj [("minLength", Json.num 3)]) 3
      (by decide)).1 (by decide)⟩

theorem tupleItems_beyond (rx : RegexFn) (path : String) (iss : List Json) :
    ∀ (xs : List Json) (i : Nat), iss.length ≤ i →
      tupleItems rx path iss i xs = [] := by
  intro xs
  induction xs with
  | nil =>
    intro i h
    simp [tupleItems]
  | cons x rest ih =>
    intro i hlen
    have hg : iss.get? i = none := List.get?_eq_none.mpr hlen
    rw [List.get?_eq_getElem?] at hg
    simp [tupleItems, hg, ih (i + 1) (Nat.le_succ_of_le hlen)]

/-- C9: for an array-typed node and an array value — tuple mode (`items`
an array): each element whose index has a schema in `items` is recursively
validated against it at path `<path>[i]`, elements beyond the `items`
length are unchecked, and the min/maxItems bounds are compared against the
data array's length; homogeneous mode (`items` a non-array node): every
element is recursively validated against that node at `<path>[i]` and the
min/maxItems bounds are never consulted (the result is `homogItems`, which
does not read them); `items` absent: no element-level checks at all. -/
theorem C9_items_modes (rx : RegexFn) (path : String) (xs iss : List Json)
    (schema j : Json)
    (ht : (schema.get "type").bind Json.asStr = some "array") :
    (schema.get "items" = some (Json.arr iss) →
      validate_property rx path (Json.arr xs) schema =
        tupleItems rx path iss 0 xs ++ minItemsErrors path xs.length schema ++
          maxItemsErrors path xs.length schema) ∧
    (∀ (i : Nat) (x : Json) (rest : List Json) (isch : Json),
      iss.get? i = some isch →
      tupleItems rx path iss i (x :: rest) =
        validate_property rx (path ++ "[" ++ toString i ++ "]") x isch ++
          tupleItems rx path iss (i + 1) rest) ∧
    (∀ i : Nat, iss.length ≤ i → tupleItems rx path iss i xs = []) ∧
    (schema.get "items" = some j → j.isArray = false →
      validate_property rx path (Json.arr xs) schema =
        homogItems rx path j 0 xs) ∧
    (∀ (i : Nat) (x : Json) (rest : List Json),
      homogItems rx path j i (x :: rest) =
        validate_property rx (path ++ "[" ++ toString i ++ "]") x j ++
          homogItems rx path j (i + 1) rest) ∧
    (schema.get "items" = none →
      validate_property rx path (Json.arr xs) schema = []) := by
  refine ⟨fun hi => ?_, fun i x rest isch hg => ?_, tupleItems_beyond rx path iss xs,
    fun hi hj => ?_, fun i x rest => ?_, fun hi => ?_⟩
  · rw [vp_arr rx path xs schema ht]
    unfold arrayErrors
    rw [hi]
  · rw [List.get?_eq_getElem?] at hg
    simp [tupleItems, hg]
  · rw [vp_arr rx path xs schema ht]
    unfold arrayErrors
    rw [hi]
    cases j <;> simp_all [Json.isArray]
  · simp [homogItems]
  · rw [vp_arr rx path xs schema ht]
    unfold arrayErrors
    rw [hi]

theorem C9_witness :
    validate_property rxNone ".t"
      (Json.arr [Json.str "x", Json.str "not-an-email"])
      (Json.obj [("type", Json.str "array"),
        ("items", Json.arr
          [Json.obj [("type", Json.str "string")],
           Json.obj [("type", Json.str "string"), ("format", Json.str "email")]])]) =
      [".t[1]: invalid email \"not-an-email\""] := by
  rw [(C9_items_modes rxNone ".t"
      [Json.str "x", Json.str "not-an-email"]
      [Json.obj [("type", Json.str "string")],
       Json.obj [("type", Json.str "string"), ("format", Json.str "email")]]
      (Json.obj [("type", Json.str "array"),
        ("items", Json.arr
          [Json.obj [("type", Json.str "string")],
           Json.obj [("type", Json.str "string"), ("format", Json.str "email")]])])
      Json.null rfl).1 rfl]
  have h2 : is_valid_email "not-an-email" = false := by decide
  simp [tupleItems, validate_property, formatErrors, patternErrors, minLengthErrors,
    minItemsErrors, maxItemsErrors, Json.get, getKey, Json.asStr, Json.asU64, rxNone, h2]
  decide

/-- C10: a `format` key holding anything other than the string `"uri"` or
`"email"` (another string, or a non-string value, read through `as_str`)
contributes no format error at all: under type `"string"` the output is
exactly the pattern and minLength blocks. -/
theorem C10_unrecognized_format (rx : RegexFn) (path s : String) (schema : Json)
    (h : ∀ f : String, (schema.get "format").bind Json.asStr = some f →
      f ≠ "uri" ∧ f ≠ "email") :
    formatErrors path s schema = [] ∧
    ((schema.get "type").bind Json.asStr = some "string" →
      validate_property rx path (Json.str s) schema =
        patternErrors rx path s schema ++ minLengthErrors path s schema) := by
  have hfe : formatErrors path s schema = [] := by
    unfold formatErrors
    cases hf : (schema.get "format").bind Json.asStr with
    | none => rfl
    | some f =>
      obtain ⟨h1, h2⟩ := h f hf
      split
      · rename_i heq
        exact absurd (Option.some.inj heq) h1
      · rename_i heq
        exact absurd (Option.some.inj heq) h2
      · rfl
  refine ⟨hfe, fun ht => ?_⟩
  rw [vp_str rx path s schema ht, hfe]
  simp

theorem C10_witness :
    formatErrors ".x" "zzz" (Json.obj [("format", Json.str "date")]) = [] ∧
    validate_property rxNone ".x" (Json.str "zzz")
      (Json.obj [("type", Json.str "string"), ("format", Json.str "date")]) =
      patternErrors rxNone ".x" "zzz"
        (Json.obj [("type", Json.str "string"), ("format", Json.str "date")]) ++
      minLengthErrors ".x" "zzz"
        (Json.obj [("type", Json.str "string"), ("format", Json.str "date")]) :=
  ⟨(C10_unrecognized_format rxNone ".x" "zzz"
      (Json.obj [("format", Json.str "date")])
      (fun f hf => by
        rw [show ((Json.obj [("format", Json.str "date")]).get "format").bind
          Json.asStr = some "date" from rfl] at hf
        obtain rfl := Option.some.inj hf
        exact ⟨by decide, by decide⟩)).1,
   (C10_unrecognized_format rxNone ".x" "zzz"
      (Json.obj [("type", Json.str "string"), ("format", Json.str "date")])
      (fun f hf => by
        rw [show ((Json.obj [("type", Json.str "string"),
          ("format", Json.str "date")]).get "format").bind
          Json.asStr = some "date" from rfl] at hf
        obtain rfl := Option.some.inj hf
        exact ⟨by decide, by decide⟩)).2 rfl⟩
